import Mathlib

/-!
Verification development for the mcq_gen ingestion-and-retrieval pipeline
(`app/vectordb_pinecone.py` and `app/services/book_service.py`).

The Python code is shallowly embedded: pure helpers become Lean functions,
the stateful ingest/retrieve orchestration becomes explicit state passing,
external collaborators (PDF extraction, SHA-256, the HuggingFace embedding
provider, the Pinecone index, uuid generation) become parameters or oracle
functions.  Floating-point embedding payloads are never computed with by the
code (only moved, reshaped and concatenated), so scalars are represented by
an opaque integer payload type.
-/

/-- Payload type for embedding scalars.  The pipeline performs no arithmetic
on embedding values (only shape normalisation: flatten, reshape, broadcast),
so an integer payload represents the provider floats opaquely. -/
abbrev Scalar := Int

/-- An embedding vector: `List[float]` in the source. -/
abbrev Vec := List Scalar

/-! ## Python primitives used by the chunker -/

/-- Helper for `pySplit`: walks the characters, accumulating the current
(reversed) word, emitting a word at each whitespace run boundary. -/
def pySplitAux : List Char → List Char → List String
  | [], acc => if acc.isEmpty then [] else [String.mk acc.reverse]
  | c :: cs, acc =>
    if c.isWhitespace then
      if acc.isEmpty then pySplitAux cs []
      else String.mk acc.reverse :: pySplitAux cs []
    else pySplitAux cs (c :: acc)

/-- Python `str.split()` with no arguments: split on runs of whitespace,
never producing empty words. -/
def pySplit (s : String) : List String := pySplitAux s.data []

/-- Python list slicing `l[i:j]` for arbitrary (possibly negative,
possibly out-of-range) integer bounds. -/
def pySlice {α : Type} (l : List α) (i j : Int) : List α :=
  let n : Int := l.length
  let s : Int := if i < 0 then max (n + i) 0 else min i n
  let e : Int := if j < 0 then max (n + j) 0 else min j n
  (l.drop s.toNat).take (e - s).toNat

/-! ## chunk_text (vectordb_pinecone.py lines 73-83)

The source is a `while i < len(tokens)` loop advancing `i` by
`chunk_size - overlap` (Python ints, so the step can be zero or negative).
The loop is embedded with explicit fuel: `none` means the fuel ran out, and
a `none` result for every fuel amount means the Python loop never
terminates.  Each iteration emits the window `tokens[i : i+chunk_size]`;
the source joins each window with `" "` as it is appended, which we apply
as a map over the produced windows. -/

/-- The `while i < len(tokens)` loop of `chunk_text`, producing the token
windows.  `i` is a Python int (may go negative when `overlap > chunk_size`). -/
def chunkLoopF (tokens : List String) (chunk_size overlap : Int) :
    Nat → Int → Option (List (List String))
  | 0, _ => none
  | fuel+1, i =>
    if i < (tokens.length : Int) then
      match chunkLoopF tokens chunk_size overlap fuel (i + (chunk_size - overlap)) with
      | none => none
      | some rest => some (pySlice tokens i (i + chunk_size) :: rest)
    else
      some []

/-- `chunk_text(text, chunk_size, overlap)` with explicit fuel:
`some chunks` is the value the Python function returns, `none` for every
fuel means the Python loop diverges. -/
def chunk_textF (text : String) (chunk_size overlap : Int) (fuel : Nat) :
    Option (List String) :=
  let tokens := pySplit text
  if tokens = [] then some []
  else (chunkLoopF tokens chunk_size overlap fuel 0).map
    (fun cks => cks.map (String.intercalate " "))

/-! ## Python/numpy value model for the embedding client

The HuggingFace provider response is an untrusted Python value: numbers,
(possibly nested) lists, or dicts.  `np.array(x, dtype=float)` succeeds
exactly on rectangular numeric nestings; `NDArr` carries the resulting
shape and the row-major flattened data. -/

mutual
inductive PyVal : Type where
  | num (x : Int)
  | list (xs : PyList)
  | dict (fs : PyDict)
inductive PyList : Type where
  | nil
  | cons (v : PyVal) (tl : PyList)
inductive PyDict : Type where
  | dnil
  | dcons (k : String) (v : PyVal) (tl : PyDict)
end

/-- The underlying Lean list of a Python list value. -/
def PyList.toList : PyList → List PyVal
  | .nil => []
  | .cons v tl => v :: tl.toList

/-- Python dict key lookup (keys are unique in a Python dict; first match). -/
def PyDict.find : PyDict → String → Option PyVal
  | .dnil, _ => none
  | .dcons k v tl, key => if k = key then some v else tl.find key

/-- A numpy array produced by `np.array(x, dtype=float)`: its shape and the
row-major flattened data (`arr.flatten().tolist()`). -/
structure NDArr where
  shape : List Nat
  data : List Scalar
deriving DecidableEq

/-- `arr.ndim`. -/
def NDArr.ndim (a : NDArr) : Nat := a.shape.length

/-- `arr.size` (equal to the flattened data length). -/
def NDArr.size (a : NDArr) : Nat := a.data.length

/-- `arr.shape[0]` (0 for a 0-d array). -/
def NDArr.dim0 (a : NDArr) : Nat := a.shape.headD 0

/-- Row extraction from row-major data: n rows of m entries each, as
produced by `for row in arr` over `arr.reshape(n, m)`. -/
def reshapeRows (data : List Scalar) (n m : Nat) : List Vec :=
  (List.range n).map (fun i => (data.drop (i * m)).take m)

/-- `for row in arr` over a 2-d array: rows of length `shape[1]`. -/
def NDArr.rows (a : NDArr) : List Vec :=
  reshapeRows a.data a.dim0 ((a.shape.drop 1).headD 0)

mutual
/-- `np.array(v, dtype=float)`: `some` of the array when the value is a
rectangular numeric nesting, `none` when numpy raises (dict anywhere, or
ragged sub-shapes). -/
def pyToND : PyVal → Option NDArr
  | .num x => some ⟨[], [x]⟩
  | .dict _ => none
  | .list xs =>
    match pyToNDs xs with
    | none => none
    | some arrs =>
      match arrs with
      | [] => some ⟨[0], []⟩
      | a :: rest =>
        if rest.all (fun b => b.shape = a.shape) then
          some ⟨(a :: rest).length :: a.shape, ((a :: rest).map NDArr.data).flatten⟩
        else none
def pyToNDs : PyList → Option (List NDArr)
  | .nil => some []
  | .cons v tl =>
    match pyToND v, pyToNDs tl with
    | some a, some arrs => some (a :: arrs)
    | _, _ => none
end

/-- `[float(x) for x in item]`: succeeds only when every element is a
number (Python `float` raises on lists and dicts). -/
def coerceFloats : List PyVal → Option Vec
  | [] => some []
  | .num x :: tl => (coerceFloats tl).map (x :: ·)
  | _ :: _ => none

/-- `_coerce_to_vector` (vectordb_pinecone.py lines 119-147): `none` models
the branches that raise.  Every non-raising branch returns the flattened
data (1-d flatten, `arr[0]` of a (1,m) array, and the generic flatten all
coincide with the row-major data). -/
def coerceToVector (item : PyVal) : Option Vec :=
  match item with
  | .dict fs =>
    match fs.find "embedding" with
    | some v => (pyToND v).map NDArr.data
    | none =>
      match fs.find "embeddings" with
      | some v => (pyToND v).map NDArr.data
      | none => none
  | _ =>
    match pyToND item with
    | some a => some a.data
    | none =>
      match item with
      | .list xs => coerceFloats xs.toList
      | _ => none

/-- CASE A body (lines 185-189): coerce each response item in order,
appending as it goes; a raising item leaves the already-appended prefix in
the buffer and aborts the attempt (second component false). -/
def coerceAll : List PyVal → List Vec × Bool
  | [] => ([], true)
  | v :: vs =>
    match coerceToVector v with
    | none => ([], false)
    | some vec =>
      let (rest, ok) := coerceAll vs
      (vec :: rest, ok)

/-- CASE B (lines 191-215): the branches driven by `np.array(resp)`.
`some (vecs, true)` is a break appending `vecs`; `none` falls through. -/
def caseB (batch : List String) (arr : Option NDArr) : Option (List Vec × Bool) :=
  match arr with
  | none => none
  | some a =>
    if a.ndim = 2 ∧ a.dim0 = batch.length then some (a.rows, true)
    else if a.ndim = 1 then
      if batch.length = 1 then some ([a.data], true)
      else if a.size % batch.length = 0 then
        some (reshapeRows a.data batch.length (a.size / batch.length), true)
      else some (List.replicate batch.length a.data, true)
    else none

/-- CASE C (lines 217-233): a list response whose length differs from the
batch: coerce the items that can be coerced; use them if exactly batch-many
remain, broadcast if exactly one remains for a multi-item batch. -/
def caseC (batch : List String) (resp : PyVal) : Option (List Vec × Bool) :=
  match resp with
  | .list xs =>
    let flattened := xs.toList.filterMap coerceToVector
    if flattened.length = batch.length then some (flattened, true)
    else if flattened.length = 1 ∧ 1 < batch.length then
      some (List.replicate batch.length (flattened.headD []), true)
    else none
  | _ => none

/-- The `"embeddings"` key branch of CASE D (lines 237-248): 2-d with first
dimension the batch size, or 1-d for a single-item batch; an `np.array`
failure is swallowed by the source's try/except-pass (none). -/
def embsKeyClause (batch : List String) (v : PyVal) : Option (List Vec × Bool) :=
  match pyToND v with
  | none => none
  | some a =>
    if a.ndim = 2 ∧ a.dim0 = batch.length then some (a.rows, true)
    else if a.ndim = 1 ∧ batch.length = 1 then some ([a.data], true)
    else none

/-- The `"embedding"` key branch of CASE D (lines 249-260): same shapes,
checked in the opposite order. -/
def embKeyClause (batch : List String) (v : PyVal) : Option (List Vec × Bool) :=
  match pyToND v with
  | none => none
  | some a =>
    if a.ndim = 1 ∧ batch.length = 1 then some ([a.data], true)
    else if a.ndim = 2 ∧ a.dim0 = batch.length then some (a.rows, true)
    else none

/-- CASE D body for a dict response (lines 235-260): the `embeddings` key is
tried first, then `embedding`. -/
def dictEmbedClause (batch : List String) (fs : PyDict) : Option (List Vec × Bool) :=
  match (match fs.find "embeddings" with
         | none => none
         | some v => embsKeyClause batch v) with
  | some r => some r
  | none =>
    match fs.find "embedding" with
    | none => none
    | some v => embKeyClause batch v

/-- CASE D (lines 235-260) as guarded by `isinstance(resp, dict)`. -/
def caseD (batch : List String) (resp : PyVal) : Option (List Vec × Bool) :=
  match resp with
  | .dict fs => dictEmbedClause batch fs
  | _ => none

/-- One attempt of the response-normalisation body (lines 184-263): the
appended vectors plus whether the attempt broke (true) or raised for a
retry (false).  The source runs CASE A for a list of matching length, then
CASE B on the `np.array` view, then CASE C, then CASE D, then raises. -/
def attemptProcess (batch : List String) (resp : PyVal) : List Vec × Bool :=
  match resp with
  | .list xs =>
    if xs.toList.length = batch.length then coerceAll xs.toList
    else
      match caseB batch (pyToND resp) with
      | some r => r
      | none =>
        match caseC batch resp with
        | some r => r
        | none => ([], false)
  | _ =>
    match caseB batch (pyToND resp) with
    | some r => r
    | none =>
      match caseD batch resp with
      | some r => r
      | none => ([], false)

/-! ## Sub-batching, retry loop and top-level embedding request -/

/-- Fuel-indexed body of `for i in range(0, len(texts), HF_BATCH_SIZE)`:
`texts[i : i+n]` slices.  Fuel `l.length` suffices for any step n ≥ 1. -/
def chunkListAux {α : Type} (n : Nat) : Nat → List α → List (List α)
  | 0, _ => []
  | _, [] => []
  | f+1, l => l.take n :: chunkListAux n f (l.drop n)

/-- The sub-batches `texts[i : i+n]` for `i = 0, n, 2n, ...` (n ≥ 1; the
Python `range` raises on step 0). -/
def subBatches {α : Type} (n : Nat) (l : List α) : List (List α) :=
  chunkListAux n l.length l

/-- The `while True` retry loop for one sub-batch (lines 166-274).
`prov k` is the outcome of the k-th provider call for this sub-batch
(`k` is the value of `attempt` at call time), `jit a` the `random.random()`
jitter drawn after the a-th failure.  Returns the vectors appended to
`all_embeddings` (strays from raising attempts included), whether the loop
broke (false = the RuntimeError propagated), and the backoff sleeps
`2^(attempt-1) + jitter` performed, in order.  Fuel `maxR + 1` covers the
maximal number of attempts. -/
def batchLoop (prov : Nat → Except Unit PyVal) (jit : Nat → Rat) (batch : List String)
    (maxR : Nat) : Nat → Nat → List Vec × Bool × List Rat
  | 0, _ => ([], false, [])
  | fuel+1, attempt =>
    match prov attempt with
    | .error _ =>
      if maxR < attempt + 1 then ([], false, [])
      else
        let r := batchLoop prov jit batch maxR fuel (attempt + 1)
        (r.1, r.2.1, ((2 : Rat) ^ attempt + jit (attempt + 1)) :: r.2.2)
    | .ok resp =>
      match attemptProcess batch resp with
      | (app, true) => (app, true, [])
      | (app, false) =>
        if maxR < attempt + 1 then (app, false, [])
        else
          let r := batchLoop prov jit batch maxR fuel (attempt + 1)
          (app ++ r.1, r.2.1, ((2 : Rat) ^ attempt + jit (attempt + 1)) :: r.2.2)

/-- Sequential processing of the sub-batches, accumulating
`all_embeddings`; an exhausted retry budget propagates (false). -/
def hfSyncGo (provAll : Nat → Nat → Except Unit PyVal) (jitAll : Nat → Nat → Rat)
    (maxR : Nat) : List (List String) → Nat → List Vec × Bool × List Rat
  | [], _ => ([], true, [])
  | b :: rest, bi =>
    let r := batchLoop (provAll bi) (jitAll bi) b maxR (maxR + 1) 0
    if r.2.1 then
      let r' := hfSyncGo provAll jitAll maxR rest (bi + 1)
      (r.1 ++ r'.1, r'.2.1, r.2.2 ++ r'.2.2)
    else (r.1, false, r.2.2)

/-- `_hf_request_embeddings_sync` (lines 149-281).  `hasToken` is the
presence of HF_API_TOKEN; `provAll b k` the provider outcome for the k-th
call on sub-batch b; `jitAll b a` the jitter for that sub-batch's a-th
backoff.  Result: the returned vectors (or error for any raise) paired with
the backoff sleeps performed.  The final count check (lines 277-279) turns
a mismatched aggregate into an error. -/
def _hf_request_embeddings_sync (hasToken : Bool)
    (provAll : Nat → Nat → Except Unit PyVal) (jitAll : Nat → Nat → Rat)
    (texts : List String) (batchSize maxR : Nat) :
    Except Unit (List Vec) × List Rat :=
  if texts = [] then (.ok [], [])
  else if hasToken = false then (.error (), [])
  else
    let r := hfSyncGo provAll jitAll maxR (subBatches batchSize texts) 0
    if r.2.1 then
      if r.1.length = texts.length then (.ok r.1, r.2.2) else (.error (), r.2.2)
    else (.error (), r.2.2)

/-! ## The spec's shape-resolution cascade (claim C7)

`specShapeCascade` transcribes the cascade exactly as the claim words it:
(1) per-item collection of matching length, (2)/(3) the 2-d/1-d numeric
array clauses, (4) dict with an embedding/embeddings field, (5) otherwise
retry.  `specShapeCascadeAmended` additionally restores the source's
mismatched-length list clause (lines 217-233) between (3) and (4), which
the claim omits. -/

/-- The claim's cascade verbatim: no clause for a list response whose
length differs from the sub-batch size and does not view as a numeric
array — such a response falls to (5), a retried transient failure. -/
def specShapeCascade (batch : List String) (resp : PyVal) : List Vec × Bool :=
  match resp with
  | .list xs =>
    if xs.toList.length = batch.length then coerceAll xs.toList
    else
      match caseB batch (pyToND resp) with
      | some r => r
      | none => ([], false)
  | .dict fs =>
    match dictEmbedClause batch fs with
    | some r => r
    | none => ([], false)
  | .num _ => ([], false)

/-- The amended cascade: the claim's clauses plus the source's
mismatched-length list clause (CASE C) tried after the array clauses and
before giving up. -/
def specShapeCascadeAmended (batch : List String) (resp : PyVal) : List Vec × Bool :=
  match resp with
  | .list xs =>
    if xs.toList.length = batch.length then coerceAll xs.toList
    else
      match caseB batch (pyToND resp) with
      | some r => r
      | none =>
        match caseC batch resp with
        | some r => r
        | none => ([], false)
  | .dict fs =>
    match dictEmbedClause batch fs with
    | some r => r
    | none => ([], false)
  | .num _ => ([], false)

/-- A well-formed provider response used by witnesses: a flat numeric list,
the embedding vector for a single-text sub-batch. -/
def goodResp : PyVal := .list (.cons (.num 1) (.cons (.num 2) .nil))

/-- C7 counterexample input: a single-item list response (one dict with an
"embedding" field) for a two-item sub-batch. -/
def caseCexResp : PyVal :=
  .list (.cons (.dict (.dcons "embedding"
    (.list (.cons (.num 7) (.cons (.num 8) .nil))) .dnil)) .nil)

/-! ## Ingest and retrieval model

`app/services/book_service.py` and the upsert/retrieve orchestration of
`app/vectordb_pinecone.py`.  The relational store (Postgres `chunks` /
`books` tables) and the Pinecone index become explicit state; external
collaborators (pdfplumber extraction, hashlib sha256, uuid4, the embedding
provider and Pinecone availability) become fields of an environment
record. -/

/-- Python `str.strip()`: whitespace removed from both ends. -/
def pyStrip (s : String) : String :=
  String.mk (((s.data.dropWhile Char.isWhitespace).reverse.dropWhile
    Char.isWhitespace).reverse)

/-- One prepared chunk dict (prepare_chunks_from_pdf_sync, lines 106-114). -/
structure PrepChunk where
  chunk_id : String
  book_id : String
  chapter_name : String
  page : Int
  chunk_index : Nat
  text : String
  chunk_hash : String
deriving DecidableEq

/-- A row of the `chunks` table (models.Chunk). -/
structure ChunkRow where
  chunk_id : String
  book_id : String
  chapter_name : String
  page : Int
  chunk_index : Nat
  chunk_hash : String
  full_text : String
deriving DecidableEq

/-- A row of the `books` table (models.Book; fields relevant here). -/
structure BookRow where
  book_id : String
  title : Option String
  owner_id : Int
  inserted_chunks : Nat
deriving DecidableEq

/-- A Pinecone vector record with its metadata (lines 366-375). -/
structure VRec where
  id : String
  values : Vec
  meta_book_id : String
  meta_chapter_name : String
  meta_page : Int
  meta_chunk_index : Nat
  meta_text_preview : String
deriving DecidableEq

/-- The relational ledger: `chunks` and `books` tables. -/
structure Db where
  chunks : List ChunkRow
  books : List BookRow
deriving DecidableEq

/-- Combined mutable state: the ledger plus the vector index. -/
structure St where
  db : Db
  index : List VRec
deriving DecidableEq

/-- A caller-supplied chapter dict (`name` / `start_page` / `end_page`,
each optional, with the source's `.get` defaults). -/
structure Chapter where
  name : Option String
  start_page : Option Int
  end_page : Option Int

/-- The chapter-filter condition of a Pinecone query (`$in` or `$eq`). -/
inductive ChapCond where
  | inn (xs : List String)
  | eqc (s : String)
deriving DecidableEq

/-- A Pinecone metadata filter as built by retrieve_relevant_chunks. -/
structure Filt where
  book_id : String
  chap : Option ChapCond
deriving DecidableEq

/-- A match returned by a Pinecone query: id, score, stored metadata
(all as `.get`-style optionals, faithful to the defensive source). -/
structure PMatch where
  id : Option String
  score : Option Scalar
  metadata : List (String × String)
deriving DecidableEq

/-- One element of the retrieval result (lines 423-434). -/
structure RChunk where
  chunk_id : Option String
  score : Option Scalar
  metadata : List (String × String)
  full_text : String
deriving DecidableEq

/-- The result dict of upsert_book_to_pinecone / ingest_book_and_record. -/
structure IngestResult where
  book_id : String
  inserted : Nat
  skipped : Nat
deriving DecidableEq

/-- External collaborators of one ingest/retrieve call.  `extract` is
pdfplumber (page number, page text); `sha256` is hashlib's digest as an
opaque function of the trimmed text; `uuidChunk` is the uuid4 supply for
prepared chunks (indexed by draw order) and `uuidBook` the uuid4 drawn for
a missing book id; `cfgW`/`cfgO` are CHUNK_SIZE/CHUNK_OVERLAP; `embed` is
the outcome of _hf_request_embeddings_sync for this call;
`ensureIndexFails` and `upsertFailsAt` model Pinecone raising in
_ensure_index_exists_sync or on the k-th 128-record upsert batch; `query`
is `Index.query` returning mlist for a vector/top_k/filter. -/
structure Env where
  extract : List Nat → List (Int × String)
  sha256 : String → String
  uuidChunk : Nat → String
  uuidBook : String
  cfgW : Int
  cfgO : Int
  embed : List String → Except Unit (List Vec)
  ensureIndexFails : Bool
  upsertFailsAt : Option Nat
  query : Vec → Nat → Option Filt → List PMatch

/-- `compute_hash` (lines 60-61): sha256 over the trimmed text. -/
def compute_hash (env : Env) (text : String) : String := env.sha256 (pyStrip text)

/-- `chunk_text` totalised for the ingest model: equal to the Python
function whenever that terminates (overlap < chunk_size, proven in
chunk_text_count_and_coverage with fuel N+1); for overlap ≥ chunk_size the
Python loop diverges (chunk_text_loop_diverges_on_overlap_ge_window) and
this wrapper returns [] as a total stand-in. -/
def chunk_text_model (text : String) (chunk_size overlap : Int) : List String :=
  ((chunkLoopF (pySplit text) chunk_size overlap
    ((pySplit text).length + 1) 0).getD []).map (String.intercalate " ")

/-- The chapter-resolution loop (lines 96-102): first span containing the
page wins; `.get` defaults are start_page=1, end_page=start_page,
name="Chapter_{s}-{e}". -/
def resolveChapterGo : List Chapter → Int → String
  | [], _ => "full"
  | ch :: restc, page =>
    let s := ch.start_page.getD 1
    let e := ch.end_page.getD s
    if s ≤ page ∧ page ≤ e then
      ch.name.getD ("Chapter_" ++ toString s ++ "-" ++ toString e)
    else resolveChapterGo restc page

/-- Chapter label for a page: "full" when no chapters given (or none
match; `if chapters:` is Python truthiness, and an empty list also yields
"full" through the loop falling off the end). -/
def resolveChapter (chapters : Option (List Chapter)) (page : Int) : String :=
  match chapters with
  | none => "full"
  | some chs => resolveChapterGo chs page

/-- The per-page items of prepare_chunks_from_pdf_sync before ids and
hashes are attached: (page number, chapter label, page-local index, chunk
text) for every chunk of every non-blank page, in order.  Depends only on
`extract`, `cfgW`, `cfgO`. -/
def prepItems (env : Env) (pdf : List Nat) (chapters : Option (List Chapter)) :
    List (Int × String × Nat × String) :=
  ((env.extract pdf).map (fun p =>
    if pyStrip p.2 = "" then []
    else
      let chapter_name := resolveChapter chapters p.1
      (chunk_text_model p.2 env.cfgW env.cfgO).enum.map
        (fun ic => (p.1, chapter_name, ic.1, ic.2)))).flatten

/-- `prepare_chunks_from_pdf_sync` (lines 85-116): each item receives a
fresh uuid4 (modelled as the uuid supply indexed by draw order) and the
sha256 content hash of its text. -/
def prepare_chunks_from_pdf_sync (env : Env) (pdf : List Nat) (book_id : String)
    (chapters : Option (List Chapter)) : List PrepChunk :=
  (prepItems env pdf chapters).enum.map (fun gi =>
    { chunk_id := env.uuidChunk gi.1
      book_id := book_id
      chapter_name := gi.2.2.1
      page := gi.2.1
      chunk_index := gi.2.2.2.1
      text := gi.2.2.2.2
      chunk_hash := compute_hash env gi.2.2.2.2 })

/-- Pinecone upsert of one record: overwrite by id, else append. -/
def upsertOne (index : List VRec) (v : VRec) : List VRec :=
  if index.any (fun w => w.id = v.id) then
    index.map (fun w => if w.id = v.id then v else w)
  else index ++ [v]

/-- The 128-record batching loop of _upsert_vectors_sync (lines 297-306):
writes whole batches until `failAt` (a raising Pinecone call writes
nothing of its own batch); returns the written index and success. -/
def upsertBatchesGo (failAt : Option Nat) :
    List (List VRec) → Nat → List VRec → List VRec × Bool
  | [], _, idx => (idx, true)
  | b :: restb, k, idx =>
    if failAt = some k then (idx, false)
    else upsertBatchesGo failAt restb (k + 1) (b.foldl upsertOne idx)

/-- `_upsert_vectors_sync` (lines 297-306). -/
def _upsert_vectors_sync (failAt : Option Nat) (upserts : List VRec)
    (index : List VRec) : List VRec × Bool :=
  upsertBatchesGo failAt (subBatches 128 upserts) 0 index

/-- The dedup query (lines 343-346): the set of chunk hashes already in
the ledger for this book. -/
def hashesOf (db : Db) (bid : String) : List String :=
  (db.chunks.filter (fun r => r.book_id = bid)).map (fun r => r.chunk_hash)

/-- `upsert_book_to_pinecone` (lines 336-393): prepare, dedup against the
ledger, embed, ensure index, upsert vectors, and only then insert the new
ledger rows.  Any raise returns the state reached so far (the ledger write
is the last step). -/
def upsert_book_to_pinecone (env : Env) (book_id : String) (pdf : List Nat)
    (chapters : Option (List Chapter)) (st : St) : Except Unit IngestResult × St :=
  let prepared := prepare_chunks_from_pdf_sync env pdf book_id chapters
  if prepared = [] then (.ok ⟨book_id, 0, 0⟩, st)
  else
    let existing_hashes := hashesOf st.db book_id
    let to_index := prepared.filter (fun p => ¬ p.chunk_hash ∈ existing_hashes)
    let skipped := prepared.length - to_index.length
    if to_index = [] then (.ok ⟨book_id, 0, skipped⟩, st)
    else
      let texts := to_index.map (fun p => p.text)
      match env.embed texts with
      | .error e => (.error e, st)
      | .ok embeddings =>
        if embeddings = [] ∨ embeddings.length ≠ texts.length then (.error (), st)
        else if env.ensureIndexFails then (.error (), st)
        else
          let upserts := (to_index.zip embeddings).map (fun pe =>
            { id := pe.1.chunk_id
              values := pe.2
              meta_book_id := book_id
              meta_chapter_name := pe.1.chapter_name
              meta_page := pe.1.page
              meta_chunk_index := pe.1.chunk_index
              meta_text_preview := String.mk (pe.1.text.data.take 800) : VRec })
          let ur := _upsert_vectors_sync env.upsertFailsAt upserts st.index
          if ur.2 = false then (.error (), { st with index := ur.1 })
          else
            let newRows := to_index.map (fun p =>
              { chunk_id := p.chunk_id
                book_id := book_id
                chapter_name := p.chapter_name
                page := p.page
                chunk_index := p.chunk_index
                chunk_hash := p.chunk_hash
                full_text := p.text : ChunkRow })
            (.ok ⟨book_id, to_index.length, skipped⟩,
              { st with index := ur.1,
                        db := { st.db with chunks := st.db.chunks ++ newRows } })

/-- The `book.inserted_chunks = inserted` update on the first row matching
the book id (SQLAlchemy `.first()` then attribute assignment). -/
def replaceFirstBookCount : List BookRow → String → Nat → List BookRow
  | [], _, _ => []
  | b :: bs, bid, n =>
    if b.book_id = bid then { b with inserted_chunks := n } :: bs
    else b :: replaceFirstBookCount bs bid n

/-- `ingest_book_and_record` (book_service.py lines 12-45): run the vector
upsert, then update the existing Book row's inserted_chunks to THIS call's
inserted count, or insert a new row with that count.  `book_id or
str(uuid4())` is Python truthiness: an empty-string id also draws a fresh
uuid. -/
def ingest_book_and_record (env : Env) (pdf : List Nat) (user_id : Int)
    (book_id : Option String) (chapters : Option (List Chapter)) (st : St) :
    Except Unit IngestResult × St :=
  let book_id_to_use :=
    match book_id with
    | some b => if b = "" then env.uuidBook else b
    | none => env.uuidBook
  match upsert_book_to_pinecone env book_id_to_use pdf chapters st with
  | (.error e, st') => (.error e, st')
  | (.ok res, st') =>
    let book_id_final := if res.book_id = "" then book_id_to_use else res.book_id
    let books' :=
      match st'.db.books.find? (fun b => b.book_id = book_id_final) with
      | some _ => replaceFirstBookCount st'.db.books book_id_final res.inserted
      | none => st'.db.books ++
          [{ book_id := book_id_final, title := none, owner_id := user_id,
             inserted_chunks := res.inserted }]
    (.ok ⟨book_id_final, res.inserted, res.skipped⟩,
      { st' with db := { st'.db with books := books' } })

/-- The scope filter built by retrieve_relevant_chunks (lines 402-407);
`if scope_chapter:` is Python truthiness, so an empty string or empty list
adds no chapter condition. -/
def mkFilt (book_id : String) (scope : Option (String ⊕ List String)) : Filt :=
  { book_id := book_id
    chap :=
      match scope with
      | none => none
      | some (.inl s) => if s = "" then none else some (.eqc s)
      | some (.inr xs) => if xs = [] then none else some (.inn xs) }

/-- Metadata dict lookup with default (Python `metadata.get(key, "")`). -/
def metaLookup (m : List (String × String)) (k : String) : Option String :=
  (m.find? (fun kv => kv.1 = k)).map (fun kv => kv.2)

/-- Hydration of one match (lines 417-434): the ledger rows fetched for
all matched ids, keyed by chunk_id (a primary key, so the first match is
the row); an id with no ledger row falls back to the stored text preview,
defaulting to "". -/
def hydrateOne (st : St) (mlist : List PMatch) (m : PMatch) : RChunk :=
  let chunk_ids := mlist.map (fun mm => mm.id)
  let rows := st.db.chunks.filter (fun r => (some r.chunk_id) ∈ chunk_ids)
  { chunk_id := m.id
    score := m.score
    metadata := m.metadata
    full_text :=
      match rows.find? (fun r => some r.chunk_id = m.id) with
      | some r => r.full_text
      | none => (metaLookup m.metadata "text_preview").getD "" }

/-- The result assembly loop (lines 423-434). -/
def hydrate (st : St) (mlist : List PMatch) : List RChunk :=
  mlist.map (hydrateOne st mlist)

/-- `retrieve_relevant_chunks` (lines 395-436).  The second component is
the trace of Pinecone queries performed (their filters, in order). -/
def retrieve_relevant_chunks (env : Env) (st : St) (scope_book_id : String)
    (scope_chapter : Option (String ⊕ List String)) (query : String)
    (top_k : Nat) : Except Unit (List RChunk) × List (Option Filt) :=
  match env.embed [query] with
  | .error e => (.error e, [])
  | .ok q_embs =>
    match q_embs with
    | [] => (.ok [], [])
    | qvec :: _ =>
      let filt := mkFilt scope_book_id scope_chapter
      let mlist := env.query qvec top_k (some filt)
      if mlist = [] then
        let matches2 := env.query qvec top_k none
        if matches2 = [] then (.ok [], [some filt, none])
        else (.ok (hydrate st matches2), [some filt, none])
      else (.ok (hydrate st mlist), [some filt])

/-! ### Concrete environments and states used by witnesses -/

/-- Empty ledger and index. -/
def stEmpty : St := ⟨⟨[], []⟩, []⟩

/-- Stand-in PDF bytes (extraction is an oracle of the environment). -/
def pdfStub : List Nat := []

/-- A healthy environment: one page reading "alpha", identity hash oracle,
an embedding provider returning one fixed vector per text. -/
def envA : Env :=
  { extract := fun _ => [(1, "alpha")]
    sha256 := fun s => s
    uuidChunk := fun n => "a" ++ toString n
    uuidBook := "UB"
    cfgW := 400
    cfgO := 50
    embed := fun ts => .ok (ts.map (fun _ => [1]))
    ensureIndexFails := false
    upsertFailsAt := none
    query := fun _ _ _ => [] }

/-- Like envA but extracting different content ("beta"): a second partial
ingest for the same document. -/
def envB : Env :=
  { envA with extract := fun _ => [(1, "beta")], uuidChunk := fun n => "b" ++ toString n }

/-- Like envA but with a failing embedding provider. -/
def envEmbedFail : Env := { envA with embed := fun _ => .error () }

/-- C9 witness environment: the scoped query is empty, the unfiltered
query returns one match whose id is absent from the (empty) ledger. -/
def envQ : Env :=
  { envA with
    query := fun _ _ f =>
      match f with
      | some _ => []
      | none => [{ id := some "x", score := some 1,
                   metadata := [("text_preview", "pv")] }] }

/-! ## Theorems -/
/-! ## Chunker lemmas -/

/-- When the loop step `chunk_size - overlap` is not positive, the index
written by `i += chunk_size - overlap` never reaches `len(tokens)`, so the
loop body runs forever: no amount of fuel returns a result. -/
theorem chunkLoopF_none (tokens : List String) (cs ov : Int) (hstep : cs - ov ≤ 0) :
    ∀ (fuel : Nat) (i : Int), i < (tokens.length : Int) →
      chunkLoopF tokens cs ov fuel i = none := by
  intro fuel
  induction fuel with
  | zero => intro i _; rfl
  | succ n ih =>
    intro i hi
    simp only [chunkLoopF, if_pos hi]
    rw [ih (i + (cs - ov)) (by omega)]

/-- Python slice `l[i : i+c]` at a nonnegative in-range start. -/
theorem pySlice_nat {α : Type} (l : List α) (i : Nat) (c : Int) (hc : 0 ≤ c)
    (hi : (i : Int) < l.length) :
    pySlice l (i : Int) ((i : Int) + c) = (l.drop i).take c.toNat := by
  unfold pySlice
  have h1 : ¬ ((i : Int) < 0) := by omega
  have h2 : ¬ ((i : Int) + c < 0) := by omega
  simp only [h1, h2, if_false]
  have hmin : min (i : Int) (l.length : Int) = i := by omega
  rw [hmin]
  have htn : ((i : Int)).toNat = i := by omega
  rw [htn]
  rw [List.take_eq_take]
  simp only [List.length_drop]
  omega

/-- With a positive step (overlap < chunk_size) the loop terminates within
`tokens.length + 1` fuel, emits `ceil((N - i) / step)` windows from
position `i`, each window at most `chunk_size` tokens, and the first
`step` tokens of the successive windows concatenate back to the suffix. -/
theorem chunkLoopF_term (tokens : List String) (cs ov : Int)
    (h0 : 0 ≤ ov) (h1 : ov < cs) :
    ∀ (fuel : Nat) (i : Nat), 1 ≤ fuel → tokens.length + 1 ≤ i + fuel →
    ∃ cks, chunkLoopF tokens cs ov fuel (i : Int) = some cks ∧
      cks.length = ((tokens.length - i) + (cs - ov).toNat - 1) / (cs - ov).toNat ∧
      (cks.map (fun w => w.take (cs - ov).toNat)).flatten = tokens.drop i ∧
      ∀ w ∈ cks, w.length ≤ cs.toNat := by
  intro fuel
  induction fuel with
  | zero => intro i h hf; omega
  | succ n ih =>
    intro i _ hf
    set s : Nat := (cs - ov).toNat with hs
    have hs1 : 1 ≤ s := by omega
    have hcast : cs - ov = (s : Int) := by omega
    by_cases hlt : (i : Int) < (tokens.length : Int)
    · have hiN : i < tokens.length := by exact_mod_cast hlt
      have hn1 : 1 ≤ n := by omega
      have hf' : tokens.length + 1 ≤ (i + s) + n := by omega
      obtain ⟨cks', hsome', hlen', hflat', hbound'⟩ := ih (i + s) hn1 hf'
      have hstep : (i : Int) + (cs - ov) = ((i + s : Nat) : Int) := by
        rw [hcast]; push_cast; ring
      refine ⟨pySlice tokens i ((i : Int) + cs) :: cks', ?_, ?_, ?_, ?_⟩
      · simp only [chunkLoopF, if_pos hlt, hstep, hsome']
      · simp only [List.length_cons, hlen']
        have hr : 1 ≤ tokens.length - i := by omega
        set r : Nat := tokens.length - i with hrdef
        have hgoal : (r - s + s - 1) / s + 1 = (r + s - 1) / s := by
          by_cases hrs : r ≤ s
          · have e1 : r - s = 0 := by omega
            rw [e1]
            have e2 : (0 + s - 1) / s = 0 := Nat.div_eq_of_lt (by omega)
            rw [e2]
            have e3 : (r + s - 1) / s = 1 :=
              Nat.div_eq_of_lt_le (by omega) (by omega)
            omega
          · have e4 : r + s - 1 = (r - s + s - 1) + s := by omega
            rw [e4, Nat.add_div_right _ (by omega)]
        have : tokens.length - (i + s) = r - s := by omega
        rw [this, hgoal]
      · simp only [List.map_cons, List.flatten_cons, hflat']
        rw [pySlice_nat tokens i cs (by omega) hlt]
        have htt : ((tokens.drop i).take cs.toNat).take s = (tokens.drop i).take s := by
          rw [List.take_take]
          congr 1
          omega
        rw [htt]
        have hdd : List.drop (i + s) tokens = List.drop s (List.drop i tokens) := by
          rw [List.drop_drop, Nat.add_comm]
        rw [hdd, List.take_append_drop]
      · intro w hw
        rcases List.mem_cons.mp hw with hw | hw
        · subst hw
          rw [pySlice_nat tokens i cs (by omega) hlt]
          exact List.length_take_le _ _
        · exact hbound' w hw
    · have hge : tokens.length ≤ i := by omega
      refine ⟨[], ?_, ?_, ?_, ?_⟩
      · simp only [chunkLoopF, if_neg hlt]
      · simp only [List.length_nil]
        have : tokens.length - i = 0 := by omega
        rw [this]
        exact (Nat.div_eq_of_lt (by omega)).symm
      · simp only [List.map_nil, List.flatten_nil]
        rw [List.drop_eq_nil_of_le hge]
      · intro w hw; cases hw

/-- C1: the claim says `chunk_text` clamps or rejects a configuration with
overlap ≥ chunk_size and always returns a finite list.  The source loop
(`i += chunk_size - overlap` with no clamp) instead never terminates on any
non-empty token list with such a configuration: here, for the two-token page
"a b" with chunk_size = overlap = 1, no amount of fuel makes the loop
return, i.e. the Python call `chunk_text("a b", 1, 1)` loops forever. -/
theorem chunk_text_loop_diverges_on_overlap_ge_window :
    ∀ fuel : Nat, chunk_textF "a b" 1 1 fuel = none := by
  intro fuel
  have h : pySplit "a b" = ["a", "b"] := by decide
  simp only [chunk_textF, h]
  rw [if_neg (by decide), chunkLoopF_none _ 1 1 (by omega) fuel 0 (by decide)]
  rfl

/-- C8 counterexample: the claim says a page with fewer tokens than the
window W yields exactly one chunk (and gives count ceil(max(N-O,0)/(W-O))).
For N = 3 tokens, W = 4, O = 2 the code produces two chunks
(["a b c", "c"]), not one: the loop keeps emitting while i < N even when
the remaining suffix lies inside the previous window. -/
theorem chunk_text_small_page_two_chunks_cex :
    (pySplit "a b c").length = 3 ∧ (3 : Int) < 4 ∧
    chunk_textF "a b c" 4 2 4 = some ["a b c", "c"] ∧
    (chunk_textF "a b c" 4 2 4).map List.length ≠ some 1 := by
  refine ⟨by decide, by decide, by decide, by decide⟩

/-- C8 (amended): for a non-empty page of N tokens, window W, overlap O with
0 ≤ O < W, `chunk_text` terminates and produces exactly ceil(N/(W-O))
chunks; every window has at most W tokens (the final one may be shorter,
unpadded), and concatenating each chunk's first W-O tokens (its non-overlap
region) reconstructs the original token sequence. -/
theorem chunk_text_count_and_coverage (text : String) (chunk_size overlap : Int)
    (h0 : 0 ≤ overlap) (h1 : overlap < chunk_size)
    (hne : pySplit text ≠ []) :
    ∃ cks : List (List String),
      chunkLoopF (pySplit text) chunk_size overlap ((pySplit text).length + 1) 0 = some cks ∧
      chunk_textF text chunk_size overlap ((pySplit text).length + 1)
        = some (cks.map (String.intercalate " ")) ∧
      cks.length = ((pySplit text).length + (chunk_size - overlap).toNat - 1)
        / (chunk_size - overlap).toNat ∧
      (cks.map (fun w => w.take (chunk_size - overlap).toNat)).flatten = pySplit text ∧
      ∀ w ∈ cks, w.length ≤ chunk_size.toNat := by
  obtain ⟨cks, hsome, hlen, hflat, hbound⟩ :=
    chunkLoopF_term (pySplit text) chunk_size overlap h0 h1
      ((pySplit text).length + 1) 0 (by omega) (by omega)
  refine ⟨cks, ?_, ?_, ?_, ?_, hbound⟩
  · exact_mod_cast hsome
  · unfold chunk_textF
    rw [if_neg hne]
    rw [show ((0:Int)) = ((0:Nat) : Int) from rfl, hsome]
    rfl
  · simpa using hlen
  · simpa using hflat

/-- C8 witness: the amended count/coverage theorem instantiated on the
five-token page "a b c d e" with window 3, overlap 1. -/
theorem chunk_text_count_and_coverage_witness : ∃ cks : List (List String),
      chunkLoopF (pySplit "a b c d e") 3 1 ((pySplit "a b c d e").length + 1) 0 = some cks ∧
      chunk_textF "a b c d e" 3 1 ((pySplit "a b c d e").length + 1)
        = some (cks.map (String.intercalate " ")) ∧
      cks.length = ((pySplit "a b c d e").length + ((3:Int) - 1).toNat - 1)
        / ((3:Int) - 1).toNat ∧
      (cks.map (fun w => w.take ((3:Int) - 1).toNat)).flatten = pySplit "a b c d e" ∧
      ∀ w ∈ cks, w.length ≤ (3:Int).toNat :=
  chunk_text_count_and_coverage "a b c d e" 3 1 (by decide) (by decide) (by decide)


/-- C7 counterexample: the claim's cascade, transcribed verbatim as
`specShapeCascade`, says a one-item list response for a two-item sub-batch
resolves to no clause and is retried; the source's CASE C instead broadcasts
the single coerced vector to both items and succeeds. -/
theorem hf_cascade_case_c_cex :
    attemptProcess ["a", "b"] caseCexResp = ([[7, 8], [7, 8]], true) ∧
    specShapeCascade ["a", "b"] caseCexResp = ([], false) := by
  exact ⟨by decide, by decide⟩

/-- C7 (amended): for every sub-batch and provider response, the source's
normalisation equals the claim's priority cascade once the omitted clause is
restored: (1) per-item collection of matching length, (2) 2-d array with
first dimension the sub-batch size, (3) 1-d array (single / reshape /
broadcast-with-warning), (3.5) mismatched-length per-item collection
(coerce what coerces; exact match or single-vector broadcast), (4) dict
with an embeddings/embedding field, (5) otherwise retry. -/
theorem hf_shape_cascade_eq :
    ∀ (batch : List String) (resp : PyVal),
      attemptProcess batch resp = specShapeCascadeAmended batch resp := by
  intro batch resp
  cases resp with
  | num x => rfl
  | list xs => rfl
  | dict fs => rfl

theorem coerceAll_true (items : List PyVal) (app : List Vec)
    (h : coerceAll items = (app, true)) : app.length = items.length := by
  induction items generalizing app with
  | nil =>
    simp only [coerceAll, Prod.mk.injEq] at h
    simp [← h.1]
  | cons v vs ih =>
    simp only [coerceAll] at h
    cases hv : coerceToVector v with
    | none => rw [hv] at h; cases h
    | some vec =>
      rw [hv] at h
      cases hr : coerceAll vs with
      | mk rest ok =>
        rw [hr] at h
        simp only [Prod.mk.injEq] at h
        obtain ⟨h1, h2⟩ := h
        subst h2
        rw [← h1]
        simp [ih rest hr]

theorem reshapeRows_length (data : List Scalar) (n m : Nat) :
    (reshapeRows data n m).length = n := by
  simp [reshapeRows]

theorem caseB_some (batch : List String) (arr : Option NDArr) (app : List Vec) (ok : Bool)
    (h : caseB batch arr = some (app, ok)) : ok = true ∧ app.length = batch.length := by
  simp only [caseB] at h
  repeat' split at h
  all_goals (try cases h)
  all_goals refine ⟨rfl, ?_⟩
  all_goals simp_all [NDArr.rows, reshapeRows_length]

theorem caseC_some (batch : List String) (resp : PyVal) (app : List Vec) (ok : Bool)
    (h : caseC batch resp = some (app, ok)) : ok = true ∧ app.length = batch.length := by
  simp only [caseC] at h
  repeat' split at h
  all_goals (try cases h)
  all_goals refine ⟨rfl, ?_⟩
  all_goals simp_all [NDArr.rows, reshapeRows_length]

theorem embsKeyClause_some (batch : List String) (v : PyVal) (app : List Vec) (ok : Bool)
    (h : embsKeyClause batch v = some (app, ok)) : ok = true ∧ app.length = batch.length := by
  simp only [embsKeyClause] at h
  repeat' split at h
  all_goals (try cases h)
  all_goals refine ⟨rfl, ?_⟩
  all_goals simp_all [NDArr.rows, reshapeRows_length]

theorem embKeyClause_some (batch : List String) (v : PyVal) (app : List Vec) (ok : Bool)
    (h : embKeyClause batch v = some (app, ok)) : ok = true ∧ app.length = batch.length := by
  simp only [embKeyClause] at h
  repeat' split at h
  all_goals (try cases h)
  all_goals refine ⟨rfl, ?_⟩
  all_goals simp_all [NDArr.rows, reshapeRows_length]

theorem dictEmbedClause_some (batch : List String) (fs : PyDict) (app : List Vec) (ok : Bool)
    (h : dictEmbedClause batch fs = some (app, ok)) : ok = true ∧ app.length = batch.length := by
  simp only [dictEmbedClause] at h
  split at h
  · next r heq =>
    split at heq
    · cases heq
    · next v hfind =>
      simp only [Option.some.injEq] at h
      rw [h] at heq
      exact embsKeyClause_some batch v app ok heq
  · split at h
    · cases h
    · next v hfind => exact embKeyClause_some batch v app ok h

theorem attemptProcess_true (batch : List String) (resp : PyVal) (app : List Vec)
    (h : attemptProcess batch resp = (app, true)) : app.length = batch.length := by
  cases resp with
  | list xs =>
    simp only [attemptProcess] at h
    split at h
    · next hlen => rw [coerceAll_true _ _ h, hlen]
    · split at h
      · next r hB =>
        subst h
        exact (caseB_some batch _ app true hB).2
      · split at h
        · next r hC =>
          subst h
          exact (caseC_some batch _ app true hC).2
        · cases h
  | num x =>
    simp only [attemptProcess, caseB, pyToND, caseD] at h
    cases h
  | dict fs =>
    simp only [attemptProcess, caseB, pyToND, caseD] at h
    split at h
    · next r hD =>
      subst h
      exact (dictEmbedClause_some batch fs app true hD).2
    · cases h

theorem batchLoop_true (prov : Nat → Except Unit PyVal) (jit : Nat → Rat)
    (batch : List String) (maxR : Nat) :
    ∀ (fuel attempt : Nat) (vs : List Vec) (sl : List Rat),
      batchLoop prov jit batch maxR fuel attempt = (vs, true, sl) →
      ∃ strays out k r, vs = strays ++ out ∧ prov k = .ok r ∧
        attemptProcess batch r = (out, true) := by
  intro fuel
  induction fuel with
  | zero =>
    intro attempt vs sl h
    simp only [batchLoop] at h
    simp at h
  | succ n ih =>
    intro attempt vs sl h
    rcases hr : batchLoop prov jit batch maxR n (attempt + 1) with ⟨vs', ok', sl'⟩
    simp only [batchLoop, hr] at h
    cases hp : prov attempt with
    | error e =>
      simp only [hp] at h
      split at h
      · simp at h
      · simp only [Prod.mk.injEq] at h
        obtain ⟨h1, h2, h3⟩ := h
        subst h1
        rw [h2] at hr
        exact ih (attempt + 1) vs' sl' hr
    | ok resp =>
      simp only [hp] at h
      split at h
      · next app heq =>
        simp only [Prod.mk.injEq] at h
        exact ⟨[], app, attempt, resp, by simp [h.1.symm], hp, heq⟩
      · next app heq =>
        split at h
        · simp at h
        · simp only [Prod.mk.injEq] at h
          obtain ⟨h1, h2, h3⟩ := h
          rw [h2] at hr
          obtain ⟨strays', out, k, r, hdec, hpk, hap⟩ := ih (attempt + 1) vs' sl' hr
          exact ⟨app ++ strays', out, k, r, by rw [← h1, hdec, List.append_assoc], hpk, hap⟩

theorem hfSyncGo_true (provAll : Nat → Nat → Except Unit PyVal)
    (jitAll : Nat → Nat → Rat) (maxR : Nat) :
    ∀ (batches : List (List String)) (bi : Nat) (allv : List Vec) (sl : List Rat),
      hfSyncGo provAll jitAll maxR batches bi = (allv, true, sl) →
      ∃ contribs : List (List Vec), allv = contribs.flatten ∧
        List.Forall₂ (fun contrib (p : Nat × List String) =>
          ∃ strays out k r, contrib = strays ++ out ∧ provAll p.1 k = .ok r ∧
            attemptProcess p.2 r = (out, true)) contribs (batches.enumFrom bi) := by
  intro batches
  induction batches with
  | nil =>
    intro bi allv sl h
    simp only [hfSyncGo, Prod.mk.injEq] at h
    exact ⟨[], by simp [← h.1], by simp [List.enumFrom]⟩
  | cons b rest ih =>
    intro bi allv sl h
    rcases hr : batchLoop (provAll bi) (jitAll bi) b maxR (maxR + 1) 0 with ⟨vs, ok, sl1⟩
    simp only [hfSyncGo, hr] at h
    cases ok with
    | false =>
      simp at h
    | true =>
      rw [if_pos rfl] at h
      rcases hr2 : hfSyncGo provAll jitAll maxR rest (bi + 1) with ⟨all', ok', sl2⟩
      rw [hr2] at h
      simp only [Prod.mk.injEq] at h
      obtain ⟨h1, h2, h3⟩ := h
      rw [h2] at hr2
      obtain ⟨contribs', hflat', hfa'⟩ := ih (bi + 1) all' sl2 hr2
      obtain ⟨strays, out, k, r, hdec, hpk, hap⟩ := batchLoop_true _ _ _ _ _ _ _ _ hr
      refine ⟨vs :: contribs', ?_, ?_⟩
      · simp [← h1, hflat']
      · rw [show (b :: rest).enumFrom bi = (bi, b) :: rest.enumFrom (bi + 1) from rfl]
        exact List.Forall₂.cons ⟨strays, out, k, r, hdec, hpk, hap⟩ hfa'

theorem chunkListAux_flatten {α : Type} (n : Nat) (hn : 1 ≤ n) :
    ∀ (f : Nat) (l : List α), l.length ≤ f → (chunkListAux n f l).flatten = l := by
  intro f
  induction f with
  | zero =>
    intro l hl
    have : l = [] := List.eq_nil_of_length_eq_zero (by omega)
    subst this
    rfl
  | succ m ih =>
    intro l hl
    cases l with
    | nil => rfl
    | cons x xs =>
      simp only [chunkListAux, List.flatten_cons]
      rw [ih ((x :: xs).drop n)
        (by simp only [List.length_drop, List.length_cons]
            simp only [List.length_cons] at hl
            omega)]
      exact List.take_append_drop n (x :: xs)

theorem contribs_flatten_ge (provAll : Nat → Nat → Except Unit PyVal)
    (contribs : List (List Vec)) (pairs : List (Nat × List String))
    (h : List.Forall₂ (fun contrib (p : Nat × List String) =>
          ∃ strays out k r, contrib = strays ++ out ∧ provAll p.1 k = .ok r ∧
            attemptProcess p.2 r = (out, true)) contribs pairs) :
    (pairs.map (fun p => p.2)).flatten.length ≤ contribs.flatten.length := by
  induction h with
  | nil => simp
  | cons hrel hrest ih =>
    obtain ⟨strays, out, k, r, hdec, hpk, hap⟩ := hrel
    have hlen := attemptProcess_true _ _ _ hap
    simp only [List.map_cons, List.flatten_cons, List.length_append, hdec]
    omega

theorem contribs_exact (provAll : Nat → Nat → Except Unit PyVal) :
    ∀ (contribs : List (List Vec)) (pairs : List (Nat × List String)),
    List.Forall₂ (fun contrib (p : Nat × List String) =>
          ∃ strays out k r, contrib = strays ++ out ∧ provAll p.1 k = .ok r ∧
            attemptProcess p.2 r = (out, true)) contribs pairs →
    contribs.flatten.length = (pairs.map (fun p => p.2)).flatten.length →
    List.Forall₂ (fun block (p : Nat × List String) =>
          block.length = p.2.length ∧ ∃ k r, provAll p.1 k = .ok r ∧
            attemptProcess p.2 r = (block, true)) contribs pairs := by
  intro contribs pairs h
  induction h with
  | nil => intro _; exact List.Forall₂.nil
  | cons hrel hrest ih =>
    intro heq
    obtain ⟨strays, out, k, r, hdec, hpk, hap⟩ := hrel
    have hout := attemptProcess_true _ _ _ hap
    have hge := contribs_flatten_ge provAll _ _ hrest
    simp only [List.flatten_cons, List.length_append, List.map_cons, hdec] at heq
    have hstray : strays.length = 0 := by omega
    have hsnil : strays = [] := List.eq_nil_of_length_eq_zero hstray
    subst hsnil
    simp only [List.nil_append] at hdec
    subst hdec
    exact List.Forall₂.cons ⟨hout, k, r, hpk, hap⟩ (ih (by omega))

/-- C5: whenever the embedding request returns normally, it returns exactly
one vector per input text; the result is the in-order concatenation of
per-sub-batch blocks, each obtained from a provider response for that
sub-batch by the normalisation cascade and of exactly the sub-batch's
length (so result[i] corresponds to texts[i]); any aggregate count mismatch
is turned into an error by the final check, never truncated or padded. -/
theorem hf_embeddings_length_and_alignment (hasToken : Bool)
    (provAll : Nat → Nat → Except Unit PyVal) (jitAll : Nat → Nat → Rat)
    (texts : List String) (batchSize maxR : Nat) (res : List Vec) (sl : List Rat)
    (hbs : 1 ≤ batchSize)
    (hok : _hf_request_embeddings_sync hasToken provAll jitAll texts batchSize maxR
            = (.ok res, sl)) :
    res.length = texts.length ∧
    ∃ blocks : List (List Vec), res = blocks.flatten ∧
      List.Forall₂ (fun block (p : Nat × List String) =>
          block.length = p.2.length ∧ ∃ k r, provAll p.1 k = .ok r ∧
            attemptProcess p.2 r = (block, true))
        blocks ((subBatches batchSize texts).enumFrom 0) := by
  by_cases hemp : texts = []
  · subst hemp
    unfold _hf_request_embeddings_sync at hok
    rw [if_pos rfl] at hok
    rw [Prod.ext_iff] at hok
    obtain ⟨h1, h2⟩ := hok
    simp only [Except.ok.injEq] at h1
    subst h1
    exact ⟨rfl, [], rfl, by simp [subBatches, chunkListAux, List.enumFrom]⟩
  · unfold _hf_request_embeddings_sync at hok
    rw [if_neg hemp] at hok
    cases hasToken with
    | false =>
      simp only [if_pos rfl] at hok
      exact absurd (congrArg Prod.fst hok) (by simp)
    | true =>
      simp only [Bool.true_eq_false, if_false] at hok
      rcases hgo : hfSyncGo provAll jitAll maxR (subBatches batchSize texts) 0
        with ⟨allv, ok, sl'⟩
      simp only [hgo] at hok
      cases ok with
      | false =>
        simp only [Bool.false_eq_true, if_false] at hok
        exact absurd (congrArg Prod.fst hok) (by simp)
      | true =>
        rw [if_pos rfl] at hok
        split at hok
        · next hlen =>
          rw [Prod.ext_iff] at hok
          obtain ⟨h1, h2⟩ := hok
          simp only [Except.ok.injEq] at h1
          subst h1
          refine ⟨hlen, ?_⟩
          obtain ⟨contribs, hflat, hfa⟩ := hfSyncGo_true provAll jitAll maxR _ _ _ _ hgo
          subst hflat
          refine ⟨contribs, rfl, ?_⟩
          apply contribs_exact provAll contribs _ hfa
          rw [List.enumFrom_map_snd]
          have hsub : (subBatches batchSize texts).flatten = texts :=
            chunkListAux_flatten batchSize hbs texts.length texts (le_refl _)
          rw [hsub]
          exact hlen
        · exact absurd (congrArg Prod.fst hok) (by simp)

/-- C5 witness: the alignment theorem applied to a one-text request served
by a provider returning a flat two-entry vector. -/
theorem hf_embeddings_length_and_alignment_witness :
    ([[1, 2]] : List Vec).length = (["a"] : List String).length ∧
    ∃ blocks : List (List Vec), ([[1, 2]] : List Vec) = blocks.flatten ∧
      List.Forall₂ (fun block (p : Nat × List String) =>
          block.length = p.2.length ∧ ∃ k r,
            (fun (_ _ : Nat) => (Except.ok goodResp : Except Unit PyVal)) p.1 k = .ok r ∧
            attemptProcess p.2 r = (block, true))
        blocks ((subBatches 8 ["a"]).enumFrom 0) :=
  hf_embeddings_length_and_alignment true (fun _ _ => .ok goodResp) (fun _ _ => 0)
    ["a"] 8 3 [[1, 2]] [] (by norm_num) (by rfl)

theorem subBatches_single {α : Type} (l : List α) (n : Nat)
    (hne : l ≠ []) (hlen : l.length ≤ n) : subBatches n l = [l] := by
  cases l with
  | nil => exact absurd rfl hne
  | cons x xs =>
    show chunkListAux n (xs.length + 1) (x :: xs) = [x :: xs]
    simp only [chunkListAux]
    rw [List.drop_eq_nil_of_le (by simpa using hlen)]
    rw [List.take_of_length_le hlen]
    cases xs.length <;> rfl

theorem batchLoop_fail_then_ok (prov : Nat → Except Unit PyVal) (jit : Nat → Rat)
    (batch : List String) (maxR : Nat) :
    ∀ (m fuel attempt : Nat) (resp : PyVal) (out : List Vec),
      (∀ k, attempt ≤ k → k < attempt + m → prov k = .error ()) →
      prov (attempt + m) = .ok resp →
      attemptProcess batch resp = (out, true) →
      attempt + m ≤ maxR → m < fuel →
      batchLoop prov jit batch maxR fuel attempt =
        (out, true,
          (List.range m).map (fun t => (2:Rat)^(attempt + t) + jit (attempt + t + 1))) := by
  intro m
  induction m with
  | zero =>
    intro fuel attempt resp out hfail hok hap hbud hfuel
    cases fuel with
    | zero => omega
    | succ f =>
      rw [show attempt + 0 = attempt from rfl] at hok
      simp only [batchLoop, hok, hap]
      rfl
  | succ m ih =>
    intro fuel attempt resp out hfail hok hap hbud hfuel
    cases fuel with
    | zero => omega
    | succ f =>
      simp only [batchLoop]
      rw [hfail attempt (le_refl _) (by omega)]
      rw [if_neg (by omega)]
      rw [ih f (attempt + 1) resp out
        (fun k hk1 hk2 => hfail k (by omega) (by omega))
        (by rw [show attempt + 1 + m = attempt + (m + 1) from by omega]; exact hok)
        hap (by omega) (by omega)]
      have htail : (List.range m).map
            (fun t => (2:Rat)^(attempt + 1 + t) + jit (attempt + 1 + t + 1))
          = ((List.range m).map Nat.succ).map
            (fun t => (2:Rat)^(attempt + t) + jit (attempt + t + 1)) := by
        rw [List.map_map]
        apply List.map_congr_left
        intro a _
        simp only [Function.comp, Nat.succ_eq_add_one]
        have h1 : attempt + (a + 1) = attempt + 1 + a := by omega
        rw [h1]
      rw [List.range_succ_eq_map, List.map_cons, ← htail]
      rfl

theorem batchLoop_all_fail (prov : Nat → Except Unit PyVal) (jit : Nat → Rat)
    (batch : List String) (maxR : Nat) :
    ∀ (fuel attempt : Nat),
      (∀ k, attempt ≤ k → k ≤ maxR → prov k = .error ()) →
      attempt ≤ maxR → maxR - attempt < fuel →
      batchLoop prov jit batch maxR fuel attempt =
        ([], false,
          (List.range (maxR - attempt)).map
            (fun t => (2:Rat)^(attempt + t) + jit (attempt + t + 1))) := by
  intro fuel
  induction fuel with
  | zero => intro attempt _ _ h; omega
  | succ f ih =>
    intro attempt hfail hle hfuel
    simp only [batchLoop]
    rw [hfail attempt (le_refl _) hle]
    by_cases hlast : attempt = maxR
    · subst hlast
      rw [if_pos (by omega)]
      simp
    · rw [if_neg (by omega)]
      rw [ih (attempt + 1) (fun k hk1 hk2 => hfail k (by omega) hk2) (by omega) (by omega)]
      have hr : maxR - attempt = (maxR - (attempt + 1)) + 1 := by omega
      rw [hr]
      have htail : (List.range (maxR - (attempt + 1))).map
            (fun t => (2:Rat)^(attempt + 1 + t) + jit (attempt + 1 + t + 1))
          = ((List.range (maxR - (attempt + 1))).map Nat.succ).map
            (fun t => (2:Rat)^(attempt + t) + jit (attempt + t + 1)) := by
        rw [List.map_map]
        apply List.map_congr_left
        intro a _
        simp only [Function.comp, Nat.succ_eq_add_one]
        have h1 : attempt + (a + 1) = attempt + 1 + a := by omega
        rw [h1]
      rw [List.range_succ_eq_map, List.map_cons, ← htail]
      rfl

/-- C6: for a single-sub-batch request, (a) a provider failing on the first
MAX_RETRIES-1 calls and succeeding on the next yields the normalised result,
with one backoff sleep 2^(attempt-1) + jitter per failure, in order; (b) a
provider failing on all MAX_RETRIES+1 calls makes the whole request raise
with no output, after exactly MAX_RETRIES backoff sleeps; (c) with jitter
drawn from [0,1), each sleep lies in [2^(attempt-1), 2^(attempt-1)+1). -/
theorem hf_retry_backoff_and_abort (texts : List String) (batchSize maxR : Nat)
    (hne : texts ≠ []) (hbs : texts.length ≤ batchSize) (hmr : 1 ≤ maxR) :
    (∀ (provAll : Nat → Nat → Except Unit PyVal) (jitAll : Nat → Nat → Rat)
       (resp : PyVal) (out : List Vec),
      (∀ k, k < maxR - 1 → provAll 0 k = .error ()) →
      provAll 0 (maxR - 1) = .ok resp →
      attemptProcess texts resp = (out, true) →
      _hf_request_embeddings_sync true provAll jitAll texts batchSize maxR
        = (.ok out, (List.range (maxR - 1)).map
            (fun t => (2:Rat)^t + jitAll 0 (t + 1)))) ∧
    (∀ (provAll : Nat → Nat → Except Unit PyVal) (jitAll : Nat → Nat → Rat),
      (∀ k, k ≤ maxR → provAll 0 k = .error ()) →
      _hf_request_embeddings_sync true provAll jitAll texts batchSize maxR
        = (.error (), (List.range maxR).map
            (fun t => (2:Rat)^t + jitAll 0 (t + 1)))) ∧
    (∀ (jitAll : Nat → Nat → Rat),
      (∀ a, 0 ≤ jitAll 0 a ∧ jitAll 0 a < 1) → ∀ n,
      List.Forall₂ (fun d (t : Nat) => (2:Rat)^t ≤ d ∧ d < (2:Rat)^t + 1)
        ((List.range n).map (fun t => (2:Rat)^t + jitAll 0 (t + 1))) (List.range n)) := by
  refine ⟨?_, ?_, ?_⟩
  · intro provAll jitAll resp out hfail hok hap
    unfold _hf_request_embeddings_sync
    rw [if_neg hne]
    simp only [Bool.true_eq_false, if_false]
    rw [subBatches_single texts batchSize hne hbs]
    have hrun := batchLoop_fail_then_ok (provAll 0) (jitAll 0) texts maxR
      (maxR - 1) (maxR + 1) 0 resp out
      (fun k hk1 hk2 => hfail k (by omega))
      (by rw [show 0 + (maxR - 1) = maxR - 1 from by omega]; exact hok)
      hap (by omega) (by omega)
    simp only [hfSyncGo, hrun, if_true, List.append_nil]
    rw [if_pos (attemptProcess_true texts resp out hap)]
    have hmap : (List.range (maxR - 1)).map
          (fun t => (2:Rat)^(0 + t) + jitAll 0 (0 + t + 1))
        = (List.range (maxR - 1)).map (fun t => (2:Rat)^t + jitAll 0 (t + 1)) := by
      apply List.map_congr_left
      intro a _
      rw [show 0 + a = a from by omega]
    rw [hmap]
  · intro provAll jitAll hfail
    unfold _hf_request_embeddings_sync
    rw [if_neg hne]
    simp only [Bool.true_eq_false, if_false]
    rw [subBatches_single texts batchSize hne hbs]
    have hrun := batchLoop_all_fail (provAll 0) (jitAll 0) texts maxR
      (maxR + 1) 0 (fun k hk1 hk2 => hfail k hk2) (by omega) (by omega)
    simp only [hfSyncGo, hrun]
    simp only [Bool.false_eq_true, if_false]
    have hmap : (List.range (maxR - 0)).map
          (fun t => (2:Rat)^(0 + t) + jitAll 0 (0 + t + 1))
        = (List.range maxR).map (fun t => (2:Rat)^t + jitAll 0 (t + 1)) := by
      rw [show maxR - 0 = maxR from rfl]
      apply List.map_congr_left
      intro a _
      rw [show 0 + a = a from by omega]
    rw [hmap]
  · intro jitAll hj n
    have : ∀ l : List Nat,
        List.Forall₂ (fun d (t : Nat) => (2:Rat)^t ≤ d ∧ d < (2:Rat)^t + 1)
          (l.map (fun t => (2:Rat)^t + jitAll 0 (t + 1))) l := by
      intro l
      induction l with
      | nil => exact List.Forall₂.nil
      | cons a as ih =>
        refine List.Forall₂.cons ⟨?_, ?_⟩ ih
        · exact le_add_of_nonneg_right (hj (a + 1)).1
        · exact add_lt_add_left (hj (a + 1)).2 _
    exact this (List.range n)

/-- C6 witness: with MAX_RETRIES = 1, a provider succeeding on its first
call (zero failures) returns the result with no sleeps, a provider failing
both allowed calls aborts with one sleep, and the sleeps lie within the
backoff bounds. -/
theorem hf_retry_backoff_and_abort_witness :
    (_hf_request_embeddings_sync true (fun _ _ => .ok goodResp)
        (fun _ _ => (0:Rat)) ["a"] 8 1
      = (.ok [[1, 2]], (List.range 0).map
          (fun t => (2:Rat)^t + (fun (_ _ : Nat) => (0:Rat)) 0 (t + 1)))) ∧
    (_hf_request_embeddings_sync true (fun _ _ => .error ())
        (fun _ _ => (0:Rat)) ["a"] 8 1
      = (.error (), (List.range 1).map
          (fun t => (2:Rat)^t + (fun (_ _ : Nat) => (0:Rat)) 0 (t + 1)))) ∧
    List.Forall₂ (fun d (t : Nat) => (2:Rat)^t ≤ d ∧ d < (2:Rat)^t + 1)
      ((List.range 2).map (fun t => (2:Rat)^t + (fun (_ _ : Nat) => (0:Rat)) 0 (t + 1)))
      (List.range 2) := by
  have h := hf_retry_backoff_and_abort ["a"] 8 1 (by decide) (by decide) (by decide)
  exact ⟨h.1 (fun _ _ => .ok goodResp) (fun _ _ => 0) goodResp [[1, 2]]
          (fun k hk => by omega) rfl (by decide),
        h.2.1 (fun _ _ => .error ()) (fun _ _ => 0) (fun k hk => rfl),
        h.2.2 (fun _ _ => 0) (fun a => by norm_num) 2⟩

/-- C10: the empty-input early return precedes the token check, so an empty
batch returns the empty list for any token state and any provider (no
provider call is consulted), while a non-empty batch with no token
configured raises immediately. -/
theorem hf_empty_input_ok_and_no_token_error :
    (∀ (hasToken : Bool) (provAll : Nat → Nat → Except Unit PyVal)
       (jitAll : Nat → Nat → Rat) (batchSize maxR : Nat),
      _hf_request_embeddings_sync hasToken provAll jitAll [] batchSize maxR
        = (.ok [], [])) ∧
    (∀ (provAll : Nat → Nat → Except Unit PyVal) (jitAll : Nat → Nat → Rat)
       (texts : List String) (batchSize maxR : Nat), texts ≠ [] →
      _hf_request_embeddings_sync false provAll jitAll texts batchSize maxR
        = (.error (), [])) := by
  constructor
  · intro hasToken provAll jitAll batchSize maxR
    unfold _hf_request_embeddings_sync
    rw [if_pos rfl]
  · intro provAll jitAll texts batchSize maxR hne
    unfold _hf_request_embeddings_sync
    rw [if_neg hne, if_pos rfl]

/-- C10 witness: the no-token error conjunct applied to a concrete
non-empty input (the empty-input conjunct is hypothesis-free). -/
theorem hf_empty_input_ok_and_no_token_error_witness :
    _hf_request_embeddings_sync false (fun _ _ => .ok goodResp) (fun _ _ => 0)
      ["a"] 8 3 = (.error (), []) :=
  hf_empty_input_ok_and_no_token_error.2 (fun _ _ => .ok goodResp) (fun _ _ => 0)
    ["a"] 8 3 (by decide)

/-- C4: every raising path of upsert_book_to_pinecone (embedding failure,
embedding-count mismatch, index-availability failure, vector-upsert
failure) returns before the ledger insert, which is the final step: on any
error outcome the ledger (chunks and books tables both) is exactly the
input ledger; only the vector index may have partial writes. -/
theorem upsert_failure_leaves_ledger_unchanged (env : Env) (book_id : String)
    (pdf : List Nat) (chapters : Option (List Chapter)) (st st' : St) (e : Unit)
    (h : upsert_book_to_pinecone env book_id pdf chapters st = (.error e, st')) :
    st'.db = st.db := by
  unfold upsert_book_to_pinecone at h
  simp only at h
  repeat' split at h
  all_goals rw [Prod.mk.injEq] at h
  all_goals first
    | exact Except.noConfusion h.1
    | rw [← h.2]

/-- C4 witness: an ingest whose embedding call raises leaves the empty
ledger untouched. -/
theorem upsert_failure_leaves_ledger_unchanged_witness :
    stEmpty.db = stEmpty.db :=
  upsert_failure_leaves_ledger_unchanged envEmbedFail "B" pdfStub none
    stEmpty stEmpty () (by rfl)

theorem replaceFirst_find (books : List BookRow) (bid : String) (n : Nat) (b0 : BookRow)
    (h : books.find? (fun b => b.book_id = bid) = some b0) :
    (replaceFirstBookCount books bid n).find? (fun b => b.book_id = bid)
      = some { b0 with inserted_chunks := n } := by
  induction books with
  | nil => cases h
  | cons b bs ih =>
    by_cases hb : b.book_id = bid
    · rw [List.find?_cons_of_pos _ (by simpa using hb)] at h
      simp only [Option.some.injEq] at h
      subst h
      unfold replaceFirstBookCount
      rw [if_pos hb]
      exact List.find?_cons_of_pos _ (by simpa using hb)
    · rw [List.find?_cons_of_neg _ (by simpa using hb)] at h
      unfold replaceFirstBookCount
      rw [if_neg hb]
      rw [List.find?_cons_of_neg _ (by simpa using hb)]
      exact ih h

theorem find_append_new (books : List BookRow) (new : BookRow) (bid : String)
    (hnew : new.book_id = bid)
    (h : books.find? (fun b => b.book_id = bid) = none) :
    (books ++ [new]).find? (fun b => b.book_id = bid) = some new := by
  induction books with
  | nil =>
    simp only [List.nil_append]
    exact List.find?_cons_of_pos _ (by simpa using hnew)
  | cons b bs ih =>
    by_cases hb : b.book_id = bid
    · rw [List.find?_cons_of_pos _ (by simpa using hb)] at h
      cases h
    · rw [List.find?_cons_of_neg _ (by simpa using hb)] at h
      rw [List.cons_append, List.find?_cons_of_neg _ (by simpa using hb)]
      exact ih h

theorem upsertBooks_find (books : List BookRow) (bidF : String) (n : Nat) (user : Int) :
    ∃ b : BookRow,
      ((match books.find? (fun (b : BookRow) => b.book_id = bidF) with
        | some _ => replaceFirstBookCount books bidF n
        | none => books ++
            [{ book_id := bidF, title := none, owner_id := user,
               inserted_chunks := n }] : List BookRow)).find?
          (fun x => x.book_id = bidF)
        = some b ∧ b.inserted_chunks = n := by
  cases hf : books.find? (fun (b : BookRow) => b.book_id = bidF) with
  | some b0 =>
    exact ⟨{ b0 with inserted_chunks := n }, replaceFirst_find books bidF n b0 hf, rfl⟩
  | none =>
    exact ⟨_, find_append_new books _ bidF rfl hf, rfl⟩

theorem ingest_ok_find_book (env : Env) (pdf : List Nat) (user_id : Int)
    (book_id : Option String) (chapters : Option (List Chapter)) (st st' : St)
    (res : IngestResult)
    (h : ingest_book_and_record env pdf user_id book_id chapters st = (.ok res, st')) :
    ∃ b : BookRow, st'.db.books.find? (fun x => x.book_id = res.book_id) = some b ∧
      b.inserted_chunks = res.inserted := by
  unfold ingest_book_and_record at h
  simp only at h
  split at h
  · rw [Prod.mk.injEq] at h
    exact Except.noConfusion h.1
  · next res0 st0 hu =>
    rw [Prod.mk.injEq] at h
    obtain ⟨h1, h2⟩ := h
    simp only [Except.ok.injEq] at h1
    subst h1
    rw [← h2]
    exact upsertBooks_find st0.db.books _ res0.inserted user_id

/-- C2 counterexample: two partial ingests for document "B" (contents
"alpha" then "beta").  After the second ingest the ledger holds 2 chunks
for "B" but the Book row's count is 1 — the count inserted by that single
ingest, not the ledger's cumulative total as the claim states. -/
theorem ingest_count_not_cumulative_cex :
    (ingest_book_and_record envB pdfStub 7 (some "B") none
        (ingest_book_and_record envA pdfStub 7 (some "B") none stEmpty).2).2.db.books
      = [{ book_id := "B", title := none, owner_id := 7, inserted_chunks := 1 }] ∧
    ((ingest_book_and_record envB pdfStub 7 (some "B") none
        (ingest_book_and_record envA pdfStub 7 (some "B") none stEmpty).2).2.db.chunks.filter
      (fun r => r.book_id = "B")).length = 2 ∧
    (1 : Nat) ≠ 2 :=
  ⟨by decide, by decide, by decide⟩

/-- C2 (amended): after every successful ingest, the Document row for the
returned document id — updated if it existed, inserted otherwise — carries
`inserted_chunks` equal to the count inserted by THAT single ingest (0 on a
no-op re-ingest), not the ledger's cumulative total, so partial ingests do
not converge to the true total. -/
theorem ingest_sets_count_to_single_call_inserted (env : Env) (pdf : List Nat)
    (user_id : Int) (book_id : Option String) (chapters : Option (List Chapter))
    (st st' : St) (res : IngestResult)
    (h : ingest_book_and_record env pdf user_id book_id chapters st = (.ok res, st')) :
    ∃ b : BookRow, st'.db.books.find? (fun x => x.book_id = res.book_id) = some b ∧
      b.inserted_chunks = res.inserted :=
  ingest_ok_find_book env pdf user_id book_id chapters st st' res h

/-- C2 witness: the first ingest of "alpha" into an empty store yields a
Book row with count 1. -/
theorem ingest_sets_count_to_single_call_inserted_witness :
    ∃ b : BookRow,
      ((ingest_book_and_record envA pdfStub 7 (some "B") none stEmpty).2).db.books.find?
        (fun x => x.book_id = (IngestResult.mk "B" 1 0).book_id) = some b ∧
      b.inserted_chunks = (IngestResult.mk "B" 1 0).inserted :=
  ingest_sets_count_to_single_call_inserted envA pdfStub 7 (some "B") none stEmpty
    (ingest_book_and_record envA pdfStub 7 (some "B") none stEmpty).2
    ⟨"B", 1, 0⟩ (by rfl)

theorem prepItems_congr (env₁ env₂ : Env) (pdf : List Nat)
    (chapters : Option (List Chapter))
    (hext : env₂.extract = env₁.extract) (hW : env₂.cfgW = env₁.cfgW)
    (hO : env₂.cfgO = env₁.cfgO) :
    prepItems env₂ pdf chapters = prepItems env₁ pdf chapters := by
  unfold prepItems
  rw [hext, hW, hO]

theorem prepare_hash_map (env : Env) (pdf : List Nat) (bid : String)
    (chapters : Option (List Chapter)) :
    (prepare_chunks_from_pdf_sync env pdf bid chapters).map (fun p => p.chunk_hash)
      = (prepItems env pdf chapters).map
          (fun it => env.sha256 (pyStrip it.2.2.2)) := by
  unfold prepare_chunks_from_pdf_sync compute_hash
  rw [List.map_map]
  rw [show ((fun (p : PrepChunk) => p.chunk_hash) ∘
      (fun (gi : Nat × (Int × String × Nat × String)) =>
        ({ chunk_id := env.uuidChunk gi.1, book_id := bid, chapter_name := gi.2.2.1,
           page := gi.2.1, chunk_index := gi.2.2.2.1, text := gi.2.2.2.2,
           chunk_hash := env.sha256 (pyStrip gi.2.2.2.2) } : PrepChunk)))
    = ((fun (it : Int × String × Nat × String) => env.sha256 (pyStrip it.2.2.2))
        ∘ Prod.snd) from rfl]
  rw [← List.map_map, List.enum_map_snd]

theorem prepare_length (env : Env) (pdf : List Nat) (bid : String)
    (chapters : Option (List Chapter)) :
    (prepare_chunks_from_pdf_sync env pdf bid chapters).length
      = (prepItems env pdf chapters).length := by
  unfold prepare_chunks_from_pdf_sync
  rw [List.length_map, List.enum_length]

theorem upsert_book_ok_props (env : Env) (book_id : String) (pdf : List Nat)
    (chapters : Option (List Chapter)) (st st' : St) (res : IngestResult)
    (h : upsert_book_to_pinecone env book_id pdf chapters st = (.ok res, st')) :
    res.book_id = book_id ∧ st'.db.books = st.db.books ∧
    ∀ p ∈ prepare_chunks_from_pdf_sync env pdf book_id chapters,
      p.chunk_hash ∈ hashesOf st'.db book_id := by
  unfold upsert_book_to_pinecone at h
  simp only at h
  split at h
  · next hprep =>
    rw [Prod.mk.injEq] at h
    obtain ⟨h1, h2⟩ := h
    simp only [Except.ok.injEq] at h1
    subst h1
    rw [← h2]
    exact ⟨rfl, rfl, by rw [hprep]; intro p hp; cases hp⟩
  · next hprep =>
    split at h
    · next hti =>
      rw [Prod.mk.injEq] at h
      obtain ⟨h1, h2⟩ := h
      simp only [Except.ok.injEq] at h1
      subst h1
      rw [← h2]
      refine ⟨rfl, rfl, ?_⟩
      intro p hp
      have h3 := List.filter_eq_nil_iff.1 hti p hp
      simpa using h3
    · repeat' split at h
      all_goals rw [Prod.mk.injEq] at h
      all_goals try exact Except.noConfusion h.1
      obtain ⟨h1, h2⟩ := h
      simp only [Except.ok.injEq] at h1
      subst h1
      rw [← h2]
      refine ⟨rfl, rfl, ?_⟩
      intro p hp
      unfold hashesOf
      simp only [List.filter_append, List.map_append]
      by_cases hmem : p.chunk_hash ∈ hashesOf st.db book_id
      · apply List.mem_append_left
        exact hmem
      · apply List.mem_append_right
        next hti _ _ _ _ =>
        have hpti : p ∈ (prepare_chunks_from_pdf_sync env pdf book_id chapters).filter
            (fun q => ¬ q.chunk_hash ∈ hashesOf st.db book_id) := by
          rw [List.mem_filter]
          exact ⟨hp, by simpa using hmem⟩
        apply List.mem_map.2
        refine ⟨{ chunk_id := p.chunk_id, book_id := book_id,
                  chapter_name := p.chapter_name, page := p.page,
                  chunk_index := p.chunk_index, chunk_hash := p.chunk_hash,
                  full_text := p.text }, ?_, rfl⟩
        rw [List.mem_filter]
        refine ⟨List.mem_map.2 ⟨p, hpti, rfl⟩, by simp⟩

/-- C3 counterexample: re-ingesting byte-identical content is a no-op for
the ledger and index and returns inserted=0/skipped=1, but the Book row's
inserted_chunks drops from 1 to 0 instead of staying identical as the
claim states. -/
theorem reingest_count_not_preserved_cex :
    (ingest_book_and_record envA pdfStub 7 (some "B") none stEmpty).2.db.books
      = [{ book_id := "B", title := none, owner_id := 7, inserted_chunks := 1 }] ∧
    (ingest_book_and_record envA pdfStub 7 (some "B") none
        (ingest_book_and_record envA pdfStub 7 (some "B") none stEmpty).2).1
      = .ok ⟨"B", 0, 1⟩ ∧
    (ingest_book_and_record envA pdfStub 7 (some "B") none
        (ingest_book_and_record envA pdfStub 7 (some "B") none stEmpty).2).2.db.books
      = [{ book_id := "B", title := none, owner_id := 7, inserted_chunks := 0 }] ∧
    (0 : Nat) ≠ 1 :=
  ⟨by decide, by rfl, by decide, by decide⟩

/-- C3 (amended): after a successful ingest for document id `bid`, a second
ingest of byte-identical content (same extraction, hash and chunking
configuration; provider behaviour and uuid draws may differ) returns
inserted=0 and skipped equal to the number of candidate chunks, writes no
new ledger rows and no index records — but sets the Document row's
inserted_chunks to 0 (this call's inserted count) rather than leaving it at
its value after the first call. -/
theorem reingest_identical_is_noop (env₁ env₂ : Env) (pdf : List Nat)
    (user₁ user₂ : Int) (bid : String) (hbid : bid ≠ "")
    (chapters : Option (List Chapter)) (st₀ st₁ : St) (r₁ : IngestResult)
    (hext : env₂.extract = env₁.extract) (hsha : env₂.sha256 = env₁.sha256)
    (hW : env₂.cfgW = env₁.cfgW) (hO : env₂.cfgO = env₁.cfgO)
    (h1 : ingest_book_and_record env₁ pdf user₁ (some bid) chapters st₀
            = (.ok r₁, st₁)) :
    ∃ st₂,
      ingest_book_and_record env₂ pdf user₂ (some bid) chapters st₁
        = (.ok ⟨bid, 0,
            (prepare_chunks_from_pdf_sync env₂ pdf bid chapters).length⟩, st₂) ∧
      st₂.db.chunks = st₁.db.chunks ∧ st₂.index = st₁.index ∧
      ∃ b : BookRow, st₂.db.books.find? (fun x => x.book_id = bid) = some b ∧
        b.inserted_chunks = 0 := by
  unfold ingest_book_and_record at h1
  simp only at h1
  simp only [if_neg hbid] at h1
  split at h1
  · rw [Prod.mk.injEq] at h1
    exact Except.noConfusion h1.1
  · next res0 st0 hu =>
    obtain ⟨hbid0, hbooks0, hhash0⟩ := upsert_book_ok_props env₁ bid pdf chapters st₀ st0 res0 hu
    have hBF : (if res0.book_id = "" then bid else res0.book_id) = bid := by
      rw [hbid0]
      exact if_neg hbid
    rw [hBF] at h1
    rw [Prod.mk.injEq] at h1
    obtain ⟨h1a, h1b⟩ := h1
    subst h1b
    -- the key dedup fact for the second call
    have hkey : ∀ p ∈ prepare_chunks_from_pdf_sync env₂ pdf bid chapters,
        p.chunk_hash ∈ hashesOf st0.db bid := by
      intro p hp
      have hmapeq : (prepare_chunks_from_pdf_sync env₂ pdf bid chapters).map
            (fun q => q.chunk_hash)
          = (prepare_chunks_from_pdf_sync env₁ pdf bid chapters).map
            (fun q => q.chunk_hash) := by
        rw [prepare_hash_map env₂ pdf bid chapters, prepare_hash_map env₁ pdf bid chapters,
          prepItems_congr env₁ env₂ pdf chapters hext hW hO, hsha]
      have hmm : p.chunk_hash ∈ (prepare_chunks_from_pdf_sync env₁ pdf bid chapters).map
          (fun q => q.chunk_hash) := by
        rw [← hmapeq]
        exact List.mem_map_of_mem _ hp
      obtain ⟨q, hq, hqh⟩ := List.mem_map.1 hmm
      rw [← hqh]
      exact hhash0 q hq
    -- the second upsert is a pure no-op
    have hupsert2 : ∀ st₁' : St, st₁'.db.chunks = st0.db.chunks →
        upsert_book_to_pinecone env₂ bid pdf chapters st₁'
          = (.ok ⟨bid, 0,
              (prepare_chunks_from_pdf_sync env₂ pdf bid chapters).length⟩, st₁') := by
      intro st₁' hch
      have hkey' : ∀ p ∈ prepare_chunks_from_pdf_sync env₂ pdf bid chapters,
          p.chunk_hash ∈ hashesOf st₁'.db bid := by
        intro p hp
        unfold hashesOf
        rw [hch]
        exact hkey p hp
      unfold upsert_book_to_pinecone
      simp only
      by_cases hp2 : prepare_chunks_from_pdf_sync env₂ pdf bid chapters = []
      · rw [if_pos hp2]
        rw [hp2]
        rfl
      · rw [if_neg hp2]
        have hti : (prepare_chunks_from_pdf_sync env₂ pdf bid chapters).filter
            (fun p => ¬ p.chunk_hash ∈ hashesOf st₁'.db bid) = [] := by
          rw [List.filter_eq_nil_iff]
          intro p hp
          simpa using hkey' p hp
        rw [if_pos hti, hti]
        simp
    -- run the second call
    have hing2 : ∀ (st' : St) (b₁ : BookRow), st'.db.chunks = st0.db.chunks →
        st'.db.books.find? (fun x => x.book_id = bid) = some b₁ →
        ingest_book_and_record env₂ pdf user₂ (some bid) chapters st'
          = (.ok ⟨bid, 0,
              (prepare_chunks_from_pdf_sync env₂ pdf bid chapters).length⟩,
             { st' with db := { st'.db with
                 books := replaceFirstBookCount st'.db.books bid 0 } }) := by
      intro st' b₁ hch hf
      unfold ingest_book_and_record
      simp only [if_neg hbid]
      rw [hupsert2 st' hch]
      simp only [if_neg hbid]
      rw [hf]
    obtain ⟨b₁, hfind₁, hcnt₁⟩ := upsertBooks_find st0.db.books bid res0.inserted user₁
    refine ⟨_, hing2 _ b₁ rfl hfind₁, rfl, rfl, ?_⟩
    exact ⟨{ b₁ with inserted_chunks := 0 },
      replaceFirst_find _ bid 0 b₁ hfind₁, rfl⟩

/-- C3 witness: the no-op theorem applied to a concrete second ingest of
identical content. -/
theorem reingest_identical_is_noop_witness :
    ∃ st₂,
      ingest_book_and_record envA pdfStub 8 (some "B") none
          (ingest_book_and_record envA pdfStub 7 (some "B") none stEmpty).2
        = (.ok ⟨"B", 0,
            (prepare_chunks_from_pdf_sync envA pdfStub "B" none).length⟩, st₂) ∧
      st₂.db.chunks
        = (ingest_book_and_record envA pdfStub 7 (some "B") none stEmpty).2.db.chunks ∧
      st₂.index
        = (ingest_book_and_record envA pdfStub 7 (some "B") none stEmpty).2.index ∧
      ∃ b : BookRow, st₂.db.books.find? (fun x => x.book_id = "B") = some b ∧
        b.inserted_chunks = 0 :=
  reingest_identical_is_noop envA envA pdfStub 7 8 "B" (by decide) none stEmpty
    (ingest_book_and_record envA pdfStub 7 (some "B") none stEmpty).2
    ⟨"B", 1, 0⟩ rfl rfl rfl rfl (by rfl)

/-- C9: when the query embedding succeeds, (a) a scoped query with zero
matches triggers exactly one unfiltered query (the query trace is the
scoped filter then none) while a non-empty scoped query triggers no
unfiltered query; (b) if both queries are empty the call returns the empty
list, not an error; (c) hydration of any match whose id has no ledger row
falls back to the match's stored text preview (default "") instead of
failing. -/
theorem retrieve_fallback_and_hydration (env : Env) (st : St) (bid : String)
    (scope : Option (String ⊕ List String)) (q : String) (top_k : Nat)
    (qvec : Vec) (restv : List Vec)
    (hemb : env.embed [q] = .ok (qvec :: restv)) :
    ((env.query qvec top_k (some (mkFilt bid scope)) = [] →
        (retrieve_relevant_chunks env st bid scope q top_k).2
          = [some (mkFilt bid scope), none]) ∧
     (env.query qvec top_k (some (mkFilt bid scope)) ≠ [] →
        (retrieve_relevant_chunks env st bid scope q top_k).2
          = [some (mkFilt bid scope)]) ∧
     (env.query qvec top_k (some (mkFilt bid scope)) = [] →
      env.query qvec top_k none = [] →
        (retrieve_relevant_chunks env st bid scope q top_k).1 = .ok []) ∧
     (∀ (ms : List PMatch) (m : PMatch), m ∈ ms →
        (∀ r ∈ st.db.chunks, ¬ (some r.chunk_id = m.id)) →
        (hydrateOne st ms m).full_text
          = (metaLookup m.metadata "text_preview").getD "")) := by
  refine ⟨?_, ?_, ?_, ?_⟩
  · intro hm1
    unfold retrieve_relevant_chunks
    rw [hemb]
    by_cases hq2 : env.query qvec top_k none = [] <;> simp [hm1, hq2]
  · intro hm1
    unfold retrieve_relevant_chunks
    rw [hemb]
    simp [hm1]
  · intro hm1 hm2
    unfold retrieve_relevant_chunks
    rw [hemb]
    simp [hm1, hm2]
  · intro ms m hm hnorow
    unfold hydrateOne
    simp only
    rw [List.find?_eq_none.2]
    intro r hr
    have hrc : r ∈ st.db.chunks := (List.mem_filter.1 hr).1
    simpa using hnorow r hrc

/-- C9 witness: the fallback/hydration theorem applied to envQ and the
empty ledger, exercising the unfiltered-retry trace and the preview
fallback. -/
theorem retrieve_fallback_and_hydration_witness :
    ((envQ.query [1] 8 (some (mkFilt "B" none)) = [] →
        (retrieve_relevant_chunks envQ stEmpty "B" none "q" 8).2
          = [some (mkFilt "B" none), none]) ∧
     (envQ.query [1] 8 (some (mkFilt "B" none)) ≠ [] →
        (retrieve_relevant_chunks envQ stEmpty "B" none "q" 8).2
          = [some (mkFilt "B" none)]) ∧
     (envQ.query [1] 8 (some (mkFilt "B" none)) = [] →
      envQ.query [1] 8 none = [] →
        (retrieve_relevant_chunks envQ stEmpty "B" none "q" 8).1 = .ok []) ∧
     (∀ (ms : List PMatch) (m : PMatch), m ∈ ms →
        (∀ r ∈ stEmpty.db.chunks, ¬ (some r.chunk_id = m.id)) →
        (hydrateOne stEmpty ms m).full_text
          = (metaLookup m.metadata "text_preview").getD "")) :=
  retrieve_fallback_and_hydration envQ stEmpty "B" none "q" 8 [1] [] (by rfl)
